import Mathlib

/-
Verification development for the cantatadyn daemon (a Python re-implementation
of cantata-dynamic).  The Python sources are shallowly embedded: strings are
lists of characters, Python `str.replace` / `str.split` are modelled by
executable list functions, stateful methods become explicit state-passing
functions, and code that can raise a Python exception returns `Except PyErr`.
Each embedded definition is named after the source function it models.
-/

set_option maxHeartbeats 1000000

/-- Python strings, embedded as lists of characters. -/
abbrev Str := List Char

/-- Python exceptions that the embedded code can raise. -/
inductive PyErr where
  | valueError
  | typeError
  | indexError
  deriving DecidableEq

/-- Helper used by closed evaluation theorems: the payload of `Except.ok`,
with a default for the error case. -/
def getOk {ε α : Type} (d : α) : Except ε α → α
  | .ok a => a
  | .error _ => d

/-- Worker for `pyReplace`, with explicit fuel.  The fuel is always the length
of the remaining input, so it never runs out. -/
def pyReplaceAux (pat rep : Str) : Nat → Str → Str
  | 0, s => s
  | _ + 1, [] => []
  | fuel + 1, c :: cs =>
    if pat ≠ [] ∧ pat.isPrefixOf (c :: cs) then
      rep ++ pyReplaceAux pat rep fuel (cs.drop (pat.length - 1))
    else
      c :: pyReplaceAux pat rep fuel cs

/-- Python `input.replace(pat, rep)`: replace every non-overlapping occurrence
of `pat`, scanning left to right, without rescanning the replacement text.
(`pat` is nonempty in every use in this development, matching the sources.) -/
def pyReplace (pat rep s : Str) : Str :=
  pyReplaceAux pat rep s.length s

/-- Python `s.split(sep)` for a single-character separator (splits at every
occurrence; always returns at least one piece). -/
def splitAll (sep : Char) : Str → List Str
  | [] => [[]]
  | c :: cs =>
    match splitAll sep cs with
    | [] => [[c]]
    | r :: rs => if c = sep then [] :: r :: rs else (c :: r) :: rs

/-- Python `s.split(sep, 1)` for a single-character separator (split at the
first occurrence only). -/
def splitOnce (sep : Char) : Str → List Str
  | [] => [[]]
  | c :: cs =>
    if c = sep then [[], cs]
    else
      match splitOnce sep cs with
      | [] => [[c]]
      | r :: rs => (c :: r) :: rs

/-- Python `s.splitlines()`, modelled for the newline terminator `\n`
(a trailing newline does not produce a final empty line). -/
def splitLines (s : Str) : List Str :=
  if s = [] then []
  else if s.getLast? = some '\n' then (splitAll '\n' s).dropLast
  else splitAll '\n' s

/-- Does the nonempty pattern `pat` occur as a contiguous substring? -/
def hasTok (pat : Str) : Str → Bool
  | [] => pat.isEmpty
  | c :: cs => pat.isPrefixOf (c :: cs) || hasTok pat cs

/-- Digit-string value, the core of Python `int(str)`. -/
def digitsVal : Str → Option Nat
  | [] => none
  | s =>
    if s.all Char.isDigit then
      some (s.foldl (fun acc c => 10 * acc + (c.toNat - 48)) 0)
    else none

/-- Python `int(str)` on the numeric literals occurring in this program:
an optional sign followed by decimal digits; anything else raises
`ValueError` (modelled as `none`). -/
def pyInt : Str → Option Int
  | '-' :: rest => (digitsVal rest).map (fun n => -(n : Int))
  | '+' :: rest => (digitsVal rest).map (fun n => (n : Int))
  | s => (digitsVal s).map (fun n => (n : Int))

/-- Python `int(str)` as an `Except`, raising `ValueError` on failure. -/
def pyIntE (s : Str) : Except PyErr Int :=
  match pyInt s with
  | some n => .ok n
  | none => .error .valueError

/-- Python whitespace characters stripped by `str.rstrip()`. -/
def isPySpace (c : Char) : Bool :=
  c = ' ' || c = '\t' || c = '\n' || c = '\r' || c = '\x0b' || c = '\x0c'

/-- Python `s.rstrip()`. -/
def rstrip (s : Str) : Str :=
  (s.reverse.dropWhile isPySpace).reverse

/-- Python `s.casefold()`, modelled as per-character lower-casing (all strings
the program compares are ASCII-ish tags). -/
def casefold (s : Str) : Str :=
  s.map Char.toLower

/-- Python `round(num/den)` on a nonnegative exact fraction: round half to
even (banker's rounding), which is what Python 3 `round` does.  The two call
sites, `round(n / 2.0)` and `round(n * 0.75)`, are exact in floating point,
so the rational model is behaviourally identical. -/
def pyRound (num den : Nat) : Nat :=
  let f := num / den
  let r := num % den
  if 2 * r < den then f
  else if den < 2 * r then f + 1
  else if f % 2 = 0 then f else f + 1

/-- The cantata-codec placeholder for a double quote. -/
def tokQ : Str := ['{', 'q', '}']

/-- The cantata-codec placeholder for an opening brace. -/
def tokOB : Str := ['{', 'o', 'b', '}']

/-- The cantata-codec placeholder for a closing brace. -/
def tokCB : Str := ['{', 'c', 'b', '}']

/-- The cantata-codec placeholder for a newline. -/
def tokN : Str := ['{', 'n', '}']

/-- The cantata-codec placeholder for a colon. -/
def tokC : Str := ['{', 'c', '}']

/-- CantataCodec.chr_repl_order from cantata_codec.py: the ordered
substitution table. -/
def chr_repl_order : List (Str × Str) :=
  [(['"'], tokQ), (['{'], tokOB), (['}'], tokCB), (['\n'], tokN), ([':'], tokC)]

/-- CantataCodec.encode: apply each substitution a→b in table order. -/
def encode (input : Str) : Str :=
  chr_repl_order.foldl (fun s p => pyReplace p.1 p.2 s) input

/-- CantataCodec.decode: apply each substitution b→a in reversed table
order. -/
def decode (input : Str) : Str :=
  chr_repl_order.reverse.foldl (fun s p => pyReplace p.2 p.1 s) input

/-- Concatenation of per-character images; used to describe the intermediate
strings of the encode/decode pipeline. -/
def mapConcat (f : Char → Str) : Str → Str
  | [] => []
  | c :: cs => f c ++ mapConcat f cs

/-- Per-character image of the full `encode` pipeline (derived from the five
replace passes; `encode_eq_mapConcat` proves the correspondence). -/
def encChar (c : Char) : Str :=
  if c = '"' then ['{', 'o', 'b', '{', 'c', 'b', '}', 'q', '{', 'c', 'b', '}']
  else if c = '{' then ['{', 'o', 'b', '{', 'c', 'b', '}']
  else if c = '}' then ['{', 'c', 'b', '}']
  else if c = '\n' then ['{', 'n', '}']
  else if c = ':' then ['{', 'c', '}']
  else [c]

/-- Per-character image after decode has undone the `:` substitution. -/
def st4Char (c : Char) : Str :=
  if c = '"' then ['{', 'o', 'b', '{', 'c', 'b', '}', 'q', '{', 'c', 'b', '}']
  else if c = '{' then ['{', 'o', 'b', '{', 'c', 'b', '}']
  else if c = '}' then ['{', 'c', 'b', '}']
  else if c = '\n' then ['{', 'n', '}']
  else [c]

/-- Per-character image after decode has undone the `:` and newline
substitutions. -/
def st3Char (c : Char) : Str :=
  if c = '"' then ['{', 'o', 'b', '{', 'c', 'b', '}', 'q', '{', 'c', 'b', '}']
  else if c = '{' then ['{', 'o', 'b', '{', 'c', 'b', '}']
  else if c = '}' then ['{', 'c', 'b', '}']
  else [c]

/-- Per-character image after decode has additionally undone the `}`
substitution. -/
def st2Char (c : Char) : Str :=
  if c = '"' then ['{', 'o', 'b', '}', 'q', '}']
  else if c = '{' then ['{', 'o', 'b', '}']
  else [c]

/-- Per-character image after decode has additionally undone the `{`
substitution (one pass, the `{q}` one, remains). -/
def st1Char (c : Char) : Str :=
  if c = '"' then ['{', 'q', '}']
  else [c]

/-- PlayQueueHistory state from playqueuehistory.py. -/
structure PlayQueueHistory where
  history : List Str
  limit : Nat
  deriving DecidableEq

/-- The history capacity computed inside `can_add` for a pool of
`num_songs` candidates (1 when the pool has a single song, in which case
`can_add` answers true without consulting the history). -/
def historyCapacity (num_songs : Nat) : Nat :=
  if num_songs = 1 then 1
  else if num_songs < 5 then pyRound num_songs 2
  else min (pyRound (3 * num_songs) 4) 200

/-- PlayQueueHistory.can_add: returns the answer and the updated history
state. -/
def can_add (h : PlayQueueHistory) (file : Str) (num_songs : Nat) :
    Bool × PlayQueueHistory :=
  if num_songs = 1 then (true, h)
  else
    let pq_limit :=
      if num_songs < 5 then pyRound num_songs 2
      else min (pyRound (3 * num_songs) 4) 200
    if pq_limit ≠ h.limit then (true, ⟨[], pq_limit⟩)
    else (decide (file ∉ h.history), h)

/-- PlayQueueHistory.store_song. -/
def store_song (h : PlayQueueHistory) (file : Str) : PlayQueueHistory :=
  let limit := if h.limit ≤ 0 then 5 else h.limit
  let hist := if h.history.length ≥ limit then h.history.drop 1 else h.history
  ⟨hist ++ [file], limit⟩

/-- The claim's capacity law, written with ceilings exactly as the spec
states it: 1 if the pool is a single song, `ceil(p/2)` if `p < 5`,
`min(ceil(p*0.75), 200)` otherwise. -/
def specCapacityCeil (p : Nat) : Nat :=
  if p = 1 then 1
  else if p < 5 then (p + 1) / 2
  else min ((3 * p + 3) / 4) 200

/-- Result of one trim pass of the dynamizer loop
(populate_play_queue_forever in cantatadyn.py, lines 354-361). -/
structure TrimResult where
  deletes : Nat
  lengthAfter : Int
  deriving DecidableEq

/-- The trim step of the dynamizer pass: `wantCurrentPos = desired // 2`,
`delete 0` is issued once per iteration of
`range(play_queue_track_pos - (wantCurrentPos - 1))`, the local length
counter is decremented per deletion and clamped at 0 afterwards. -/
def trimPlayQueue (desired pos : Nat) (len : Int) : TrimResult :=
  let wantCurrentPos : Int := (desired : Int) / 2
  let deletes : Nat := ((pos : Int) - (wantCurrentPos - 1)).toNat
  let lenAfter : Int := len - deletes
  ⟨deletes, if lenAfter < 0 then 0 else lenAfter⟩

/-- MpdConnection.read_reply from mpd_connect.py, driven by the list of
chunks that successive `recv` calls deliver.  `none` means the loop is still
waiting for more data (it would block).  An empty chunk models a closed
connection and returns the empty reply. -/
def read_reply : List Str → Str → Option Str
  | [], _ => none
  | chunk :: rest, acc =>
    if chunk = [] then some []
    else
      let buf := acc ++ chunk
      if ("OK".toList.isPrefixOf buf || "OK\n".toList.isSuffixOf buf) then some buf
      else if "ACK".toList.isPrefixOf buf then some []
      else read_reply rest buf

/-- The claim's reading of the read loop, with the terminator written as the
spec states it: the buffer ends with newline-OK-newline (rather than the
code's plain OK-newline). -/
def readReplyClaim : List Str → Str → Option Str
  | [], _ => none
  | chunk :: rest, acc =>
    if chunk = [] then some []
    else
      let buf := acc ++ chunk
      if ("OK".toList.isPrefixOf buf || "\nOK\n".toList.isSuffixOf buf) then some buf
      else if "ACK".toList.isPrefixOf buf then some []
      else readReplyClaim rest buf

/-- The OK-side terminal test of `read_reply` (buffer starts with OK or ends
with OK-newline), in the order the code checks it. -/
def okCond (buf : Str) : Bool :=
  "OK".toList.isPrefixOf buf || "OK\n".toList.isSuffixOf buf

/-- The ACK terminal test of `read_reply`. -/
def ackCond (buf : Str) : Bool :=
  "ACK".toList.isPrefixOf buf

/-- Concatenation of a list of chunks. -/
def joinChunks : List Str → Str
  | [] => []
  | c :: cs => c ++ joinChunks cs

/-- MinMax from rules.py: a closed integer range. -/
structure MinMax where
  min : Int
  max : Int
  deriving DecidableEq

/-- The MinMax constructor: ends are swapped when both are set the wrong way
round (`if self.min > self.max and self.max > 0`). -/
def mkMinMax (a b : Int) : MinMax :=
  if a > b ∧ b > 0 then ⟨b, a⟩ else ⟨a, b⟩

/-- MinMax.__contains__: `self.min <= value <= self.max`. -/
def memMinMax (m : MinMax) (v : Int) : Bool :=
  decide (m.min ≤ v ∧ v ≤ m.max)

/-- MinMax.__le__: `self.min <= other and self.max <= other`. -/
def leMinMax (m : MinMax) (v : Int) : Bool :=
  decide (m.min ≤ v ∧ m.max ≤ v)

/-- Insert into a Python set modelled as a duplicate-free insertion list. -/
def setAdd (xs : List Str) (x : Str) : List Str :=
  if x ∈ xs then xs else xs ++ [x]

/-- Equality of two Python sets modelled as lists. -/
def listSetEq (xs ys : List Str) : Bool :=
  xs.all (fun x => decide (x ∈ ys)) && ys.all (fun y => decide (y ∈ xs))

/-- RulesParam from rules.py.  The Python fields `include` and `exclude` are
named `includeRules` and `excludeRules` here (`include` is a Lean keyword). -/
structure RulesParam where
  includeRules : List Str
  excludeRules : List Str
  rating : MinMax
  duration : MinMax
  deriving DecidableEq

/-- A freshly constructed RulesParam(). -/
def emptyRulesParam : RulesParam := ⟨[], [], ⟨0, 0⟩, ⟨0, 0⟩⟩

/-- RulesParam.__ne__: symmetric difference on the two rule sets, plus range
inequality. -/
def neRulesParam (a b : RulesParam) : Bool :=
  !listSetEq a.includeRules b.includeRules ||
  !listSetEq a.excludeRules b.excludeRules ||
  decide (a.rating ≠ b.rating) ||
  decide (a.duration ≠ b.duration)

/-- Decimal rendering of an integer, for the f-string interpolations. -/
def intStr (i : Int) : Str := (toString i).toList

/-- The inclusive integer range `list(range(a, b + 1))`. -/
def intRange (a b : Int) : List Int :=
  (List.range (b + 1 - a).toNat).map (fun i => a + (i : Int))

/-- Rules.saveRule from rules.py: emit one MPD query string per
date × artist × genre combination into the include or exclude set. -/
def saveRule (rule : Str) (dates : List Int) (artistList genreList : List Str)
    (ruleMatch : Str) (isInclude : Bool) (maxAge : Int) (p : RulesParam) :
    RulesParam :=
  let artistList := if artistList = [] then [[]] else artistList
  let genreList := if genreList = [] then [[]] else genreList
  let ref := if isInclude then p.includeRules else p.excludeRules
  let ref :=
    genreList.foldl (fun acc genre =>
      artistList.foldl (fun acc artist =>
        if dates.length > 0 then
          dates.foldl (fun acc date =>
            let text := ruleMatch ++ [' '] ++ rule ++ " Date \"".toList ++
              intStr date ++ ['"']
            let text := if artist ≠ [] then
              text ++ " Artist \"".toList ++ artist ++ ['"'] else text
            let text := if genre ≠ [] then
              text ++ " Genre \"".toList ++ genre ++ ['"'] else text
            let text := if isInclude ∧ maxAge > 0 then
              text ++ " modified-since ".toList ++ intStr maxAge else text
            setAdd acc text) acc
        else if artist ≠ [] ∨ genre ≠ [] ∨ rule ≠ [] ∨ (isInclude ∧ maxAge > 0) then
          let text := ruleMatch ++ [' '] ++ rule
          let text := if artist ≠ [] then
            text ++ " Artist \"".toList ++ artist ++ ['"'] else text
          let text := if genre ≠ [] then
            text ++ " Genre \"".toList ++ genre ++ ['"'] else text
          let text := if maxAge > 0 then
            text ++ " modified-since ".toList ++ intStr maxAge else text
          setAdd acc text
        else acc) acc) ref
  if isInclude then {p with includeRules := ref} else {p with excludeRules := ref}

/-- The per-file parser state of Rules.readRules, together with the fields of
the Rules object that a parse writes. -/
structure ParseState where
  ruleMatch : Str
  currentRule : Str
  dates : List Int
  similarArtists : List Str
  isInclude : Bool
  genres : List Str
  maxAge : Int
  param : RulesParam
  includeUnrated : Bool
  playQueueDesiredLength : Nat
  deriving DecidableEq

/-- The state at the top of the parse loop (fresh RulesParam, defaults). -/
def initParseState : ParseState :=
  ⟨"find".toList, [], [], [], true, [], 0, emptyRulesParam, false, 10⟩

/-- The MPD/last.fm environment a rules read consults: the replies to
`list genre` and `list artist`, the similar-artist lookup, and the clock. -/
structure RulesEnv where
  genreList : List Str
  artistList : List Str
  similar : Str → List Str
  now : Int

/-- The tag keys that append to the current rule text. -/
def tagKeys : List Str :=
  ["Artist".toList, "Album".toList, "AlbumArtist".toList, "Composer".toList,
   "Comment".toList, "Title".toList, "Genre".toList, "File".toList]

/-- One line of the Rules.readRules parse loop.  Faithful to the source,
including its failure modes: `int()` on a malformed number raises
`ValueError`, and the `MaxAge` handler compares the *string* `val` against
the integer 0 (`if val > 0:`), which in Python 3 raises `TypeError` on every
MaxAge line. -/
def processLine (env : RulesEnv) (st : ParseState) (rawLine : Str) :
    Except PyErr ParseState :=
  let line := rstrip rawLine
  if "#".toList.isPrefixOf line then .ok st
  else
    let kv := splitOnce ':' line
    let key := match kv with | [k, _] => k | _ => line
    let val := match kv with | [_, v] => v | _ => []
    if "Rule".toList.isPrefixOf key then
      let st :=
        if st.currentRule.length > 1 ∨ st.similarArtists ≠ [] ∨
            st.dates ≠ [] ∨ st.genres ≠ [] then
          {st with param := (saveRule st.currentRule st.dates st.similarArtists
            st.genres st.ruleMatch st.isInclude st.maxAge st.param)}
        else st
      .ok {st with
        ruleMatch := "find".toList
        currentRule := []
        dates := []
        similarArtists := []
        isInclude := true
        genres := []}
    else if "Rating".toList.isPrefixOf key then
      match splitAll '-' val with
      | [a, b] => do
        let mi ← pyIntE a
        let ma ← pyIntE b
        let r := mkMinMax mi ma
        let r := if r.min = 0 ∧ r.max = 10 then ⟨r.min, 0⟩ else r
        .ok {st with param := {st.param with rating := r}}
      | _ => .ok st
    else if "IncludeUnrated".toList.isPrefixOf key then
      if val ≠ [] then .ok {st with includeUnrated := decide (val = "true".toList)}
      else .ok st
    else if "Duration".toList.isPrefixOf key then
      match splitAll '-' val with
      | [a, b] => do
        let mi ← pyIntE a
        let ma ← pyIntE b
        .ok {st with param := {st.param with duration := mkMinMax mi ma}}
      | _ => .ok st
    else if "NumTracks".toList.isPrefixOf key then do
      let v ← pyIntE val
      if 10 ≤ v ∧ v ≤ 500 then
        let n := v.toNat
        .ok {st with playQueueDesiredLength := if n % 2 > 0 then n + 1 else n}
      else .ok st
    else if "MaxAge".toList.isPrefixOf key then
      .error .typeError
    else if key = "Date".toList then
      match splitAll '-' val with
      | [a, b] => do
        let fromDate ← pyIntE a
        let toDate ← pyIntE b
        let lo := if fromDate > toDate then toDate else fromDate
        let hi := if fromDate > toDate then fromDate else toDate
        .ok {st with dates := intRange lo hi}
      | _ => do
        let d ← pyIntE val
        .ok {st with dates := [d]}
    else if key = "Genre".toList ∧ '*' ∈ val then
      let stem := pyReplace ['*'] [] val
      let matched := env.genreList.filter
        (fun g => !g.isEmpty && (casefold stem).isPrefixOf (casefold g))
      let genres := st.genres ++ matched
      let genres := if genres = [] then ["XXXXXXXX".toList] else genres
      .ok {st with genres := genres}
    else if key ∈ tagKeys then
      .ok {st with currentRule :=
        st.currentRule ++ [' '] ++ key ++ [' ', '"'] ++ val ++ ['"']}
    else if key = "SimilarArtists".toList then
      let results := env.similar val
      let st :=
        if results.length > 1 then
          let sim := results.foldl (fun acc artist =>
            env.artistList.foldl (fun acc mpdArtist =>
              if mpdArtist ≠ [] ∧ mpdArtist ≠ val ∧
                  casefold artist = casefold mpdArtist then
                setAdd acc artist
              else acc) acc) st.similarArtists
          {st with similarArtists := sim}
        else st
      .ok {st with similarArtists := setAdd st.similarArtists val}
    else if key = "Exact".toList ∧ val = "false".toList then
      .ok {st with ruleMatch := "search".toList}
    else if key = "Exclude".toList ∧ val = "true".toList then
      .ok {st with isInclude := false}
    else .ok st

/-- The end-of-file flush of Rules.readRules: flush the in-flight rule, or
synthesize a max-age-only include rule. -/
def flushEOF (st : ParseState) : ParseState :=
  if st.currentRule.length > 1 ∨ st.similarArtists ≠ [] ∨ st.dates ≠ [] ∨
      st.genres ≠ [] then
    {st with param := (saveRule st.currentRule st.dates st.similarArtists
      st.genres st.ruleMatch st.isInclude st.maxAge st.param)}
  else if st.maxAge > 0 ∧ st.param.includeRules = [] then
    {st with param := saveRule [] [] [] [] "find".toList true st.maxAge st.param}
  else st

/-- The pure parse of a rule file: run the line loop from a fresh state and
flush at end of file. -/
def parseLines (env : RulesEnv) (lines : List Str) : Except PyErr ParseState := do
  let st ← lines.foldlM (processLine env) initParseState
  .ok (flushEOF st)

/-- The on-disk view of the active rule file at the moment of a read:
resolved path, mtime and content lines. -/
structure FileInfo where
  path : Str
  mtime : Int
  lines : List Str

/-- The persistent fields of the Rules object that readRules reads and
writes across calls. -/
structure RulesState where
  initialRead : Bool
  modified : Bool
  param0 : RulesParam
  param1 : RulesParam
  includeUnrated : Bool
  playQueueDesiredLength : Nat
  rulesTimestamp : Int
  activeLinksTo : Option Str
  deriving DecidableEq

/-- Rules.__init__: note `self.__param = [RulesParam()] * 2` makes both
snapshots start equal (they alias one empty RulesParam), `__initial_read`
starts true, and nothing in the source ever sets it to false. -/
def initialRulesState : RulesState :=
  ⟨true, false, emptyRulesParam, emptyRulesParam, false, 10, 0, none⟩

/-- Rules.checkRulesChanged: latch `modified` on a parameter difference and
refresh the comparison snapshot. -/
def checkRulesChanged (st : RulesState) : RulesState :=
  let m := if ¬ st.modified then neRulesParam st.param0 st.param1 else st.modified
  {st with modified := m, param1 := if m then st.param0 else st.param1}

/-- Rules.readRules: `none` models a missing active file; otherwise the
mtime/link short-circuit is tried (it requires `initial_read` to be false),
and the file is parsed and the changed flag updated.  The ten-iteration
existence-retry loop of the source collapses to a single parse here because
the file snapshot is fixed for the duration of the call. -/
def readRules (env : RulesEnv) (file : Option FileInfo) (st : RulesState) :
    Except PyErr RulesState :=
  match file with
  | none => .ok {st with modified := false}
  | some fi =>
    if st.initialRead = false ∧ fi.mtime = st.rulesTimestamp ∧
        st.activeLinksTo = some fi.path then
      .ok {st with modified := false}
    else
      match parseLines env fi.lines with
      | .error e => .error e
      | .ok p =>
        .ok (checkRulesChanged
          {st with
            activeLinksTo := some fi.path
            rulesTimestamp := fi.mtime
            param0 := p.param
            includeUnrated := p.includeUnrated
            playQueueDesiredLength := p.playQueueDesiredLength})

/-- The slice of MPD state that the per-candidate rating filter consults. -/
structure RatingCtx where
  rating : MinMax
  includeUnrated : Bool
  includeRules : List Str
  songs : List Str
  sticker : Str → List Str

/-- MPD._song_rating_in_range: parse a sticker entry `rating=<n>` and test
the range (`int()` may raise ValueError). -/
def songRatingInRange (rating : MinMax) (includeUnrated : Bool) (entry : Str) :
    Except PyErr Bool :=
  match splitAll '=' entry with
  | [_, v] =>
    match pyIntE v with
    | .error e => .error e
    | .ok r => .ok (memMinMax rating r || (r == 0 && includeUnrated))
  | _ => .ok false

/-- The `for entry in ...: if self._song_rating_in_range(entry): return True`
loop of check_song_rating_in_range. -/
def anyRatingInRange (rating : MinMax) (includeUnrated : Bool) :
    List Str → Except PyErr Bool
  | [] => .ok false
  | e :: es =>
    match songRatingInRange rating includeUnrated e with
    | .error err => .error err
    | .ok b => if b then .ok true else anyRatingInRange rating includeUnrated es

/-- MPD.check_song_rating_in_range: returns the verdict and the (possibly
truncated) candidate list; `del self.songs[pos]` on the failing path. -/
def check_song_rating_in_range (ctx : RatingCtx) (filename : Str) (pos : Nat) :
    Except PyErr (Bool × List Str) :=
  if leMinMax ctx.rating 0 then .ok (true, ctx.songs)
  else if ctx.songs.length = 0 then .ok (false, ctx.songs)
  else if ctx.includeRules = [] then .ok (true, ctx.songs)
  else
    match anyRatingInRange ctx.rating ctx.includeUnrated (ctx.sticker filename) with
    | .error e => .error e
    | .ok found =>
      if found then .ok (true, ctx.songs)
      else if pos < ctx.songs.length then .ok (false, ctx.songs.eraseIdx pos)
      else .error .indexError

/-- Per-entry sticker test (the Boolean content of _song_rating_in_range on a
well-formed entry). -/
def stickerHit (rating : MinMax) (includeUnrated : Bool) (e : Str) : Bool :=
  match splitAll '=' e with
  | [_, v] =>
    match pyInt v with
    | some r => memMinMax rating r || (r == 0 && includeUnrated)
    | none => false
  | _ => false

/-- Sticker replies whose numeric part parses whenever the entry splits into
exactly two pieces at `=` (the shape under which `_song_rating_in_range`
calls `int()`). -/
def stickerWellFormed (entries : List Str) : Bool :=
  entries.all (fun e =>
    match splitAll '=' e with
    | [_, v] => (pyInt v).isSome
    | _ => true)

/-- The rating filter as the claim states it: pass whenever the range is
disabled or there WERE include rules; only otherwise consult the sticker. -/
def specRatingPassClaim (ctx : RatingCtx) (filename : Str) : Bool :=
  if leMinMax ctx.rating 0 || !ctx.includeRules.isEmpty then true
  else (ctx.sticker filename).any (stickerHit ctx.rating ctx.includeUnrated)

/-- The rating filter as the code implements it: pass when the range is
disabled, or when the candidate list is nonempty and either there are no
include rules or some sticker entry is in range. -/
def codeRatingPass (ctx : RatingCtx) (filename : Str) : Bool :=
  leMinMax ctx.rating 0 ||
    (!ctx.songs.isEmpty &&
      (ctx.includeRules.isEmpty ||
        (ctx.sticker filename).any (stickerHit ctx.rating ctx.includeUnrated)))

/-- Observable effects of a control-dispatcher action. -/
inductive Effect where
  | message (method argument clientId : Str)
  | statusMessage (clientId : Str)
  | write (path content : Str)
  | timestamp
  deriving DecidableEq

/-- MPD.save_rules from cantatadyn.py: decode the name, strip every `/`,
validate, decode the content and write `<dir>/<name>.rules`.  The `write`
effect records the path the code opens for writing (OSError, reported as
code 3, is not modelled). -/
def save_rules (dir : Str) (req clientId origName content : Str) : List Effect :=
  let name := pyReplace ['/'] [] (decode origName)
  if name = [] then [.message req "1".toList clientId]
  else if ".rules".toList.isSuffixOf name ∨ '/' ∈ name then
    [.message req ("2:".toList ++ origName) clientId]
  else
    let content := decode content
    let filepath := dir ++ ['/'] ++ name ++ ".rules".toList
    [.write filepath content, .timestamp,
     .message req ("0:".toList ++ origName) clientId, .statusMessage clientId]

/-- A routed control-dispatcher call: which handler handle_client_message
invokes and with which arguments (defaults filled in). -/
inductive Call where
  | statusCall (req clientId : Str)
  | listCall (req clientId : Str) (show? : Option Str)
  | getCall (req clientId origName : Str)
  | saveCall (req clientId origName content : Str)
  | deleteCall (req clientId origName : Str)
  | setActiveCall (req clientId origName start : Str)
  | controlCall (req clientId command clearOnStop : Str)
  | unknownVerb (req clientId : Str)
  deriving DecidableEq

/-- The routing of one colon-delimited payload by MPD.handle_client_message.
Python `handler(*parts)` raises TypeError when the argument count does not
match the handler's signature; with fewer than two parts the error branch
itself evaluates `parts[1]`, which raises IndexError. -/
def dispatchPayload (line : Str) : Except PyErr Call :=
  match splitAll ':' line with
  | p0 :: p1 :: rest =>
    if "status".toList.isSuffixOf p0 then .ok (.statusCall p0 p1)
    else if "list".toList.isSuffixOf p0 then
      match rest with
      | [] => .ok (.listCall p0 p1 none)
      | [a] => .ok (.listCall p0 p1 (some a))
      | _ => .error .typeError
    else if "get".toList.isPrefixOf p0 then
      match rest with
      | [a] => .ok (.getCall p0 p1 a)
      | _ => .error .typeError
    else if "save".toList.isPrefixOf p0 then
      match rest with
      | [a] => .ok (.saveCall p0 p1 a [])
      | [a, b] => .ok (.saveCall p0 p1 a b)
      | _ => .error .typeError
    else if "delete".toList.isPrefixOf p0 then
      match rest with
      | [a] => .ok (.deleteCall p0 p1 a)
      | _ => .error .typeError
    else if "setActive".toList.isPrefixOf p0 then
      match rest with
      | [a] => .ok (.setActiveCall p0 p1 a [])
      | [a, b] => .ok (.setActiveCall p0 p1 a b)
      | _ => .error .typeError
    else if "control".toList.isPrefixOf p0 then
      match rest with
      | [a] => .ok (.controlCall p0 p1 a [])
      | [a, b] => .ok (.controlCall p0 p1 a b)
      | _ => .error .typeError
    else .ok (.unknownVerb p0 p1)
  | _ => .error .indexError

/-- MPD.handle_client_message: route every `message: `-prefixed line of the
inbound data; the first Python exception aborts the handler. -/
def handle_client_message (data : Str) : Except PyErr (List Call) :=
  (splitLines data).foldlM
    (fun acc line =>
      if "message: ".toList.isPrefixOf line then
        match dispatchPayload (pyReplace "message: ".toList [] line) with
        | .ok c => .ok (acc ++ [c])
        | .error e => .error e
      else .ok acc)
    ([] : List Call)

/-- A rules environment with no MPD metadata, for concrete evaluations. -/
def rulesEnv0 : RulesEnv := ⟨[], [], fun _ => [], 0⟩

/-- A concrete two-line rule file used to evaluate repeated reads. -/
def fileB : FileInfo :=
  ⟨"/cfg/rules/active".toList, 1, ["Rule".toList, "Artist:X".toList]⟩

/-- The state after a first read of `fileB` from the initial state. -/
def rulesRead1 : RulesState :=
  getOk initialRulesState (readRules rulesEnv0 (some fileB) initialRulesState)

/-- The state after a second read of the unchanged `fileB`. -/
def rulesRead2 : RulesState :=
  getOk initialRulesState (readRules rulesEnv0 (some fileB) rulesRead1)

/-- A rating context with an active range, no include rules, one candidate
whose sticker is out of range. -/
def ratingCtxA : RatingCtx :=
  ⟨⟨3, 5⟩, false, [], ["f".toList], fun _ => ["rating=1".toList]⟩

/-- A rating context with an active range, one include rule, two candidates,
and an in-range sticker. -/
def ratingCtxB : RatingCtx :=
  ⟨⟨3, 5⟩, false, ["find Artist \"X\"".toList], ["f".toList, "g".toList],
   fun _ => ["rating=4".toList]⟩

/-
Theorems.  First the generic facts about the embedded string primitives,
then the claim theorems.
-/

theorem pyReplaceAux_congr (pat rep : Str) :
    ∀ n f₁ f₂ s, s.length ≤ n → s.length ≤ f₁ → s.length ≤ f₂ →
      pyReplaceAux pat rep f₁ s = pyReplaceAux pat rep f₂ s := by
  intro n
  induction n with
  | zero =>
    intro f₁ f₂ s hs _ _
    have hnil : s = [] := by
      cases s with
      | nil => rfl
      | cons a as => simp at hs
    subst hnil
    cases f₁ <;> cases f₂ <;> rfl
  | succ n ih =>
    intro f₁ f₂ s hs h1 h2
    cases s with
    | nil => cases f₁ <;> cases f₂ <;> rfl
    | cons c cs =>
      simp only [List.length_cons] at hs h1 h2
      cases f₁ with
      | zero => omega
      | succ f₁ =>
        cases f₂ with
        | zero => omega
        | succ f₂ =>
          simp only [pyReplaceAux]
          by_cases hc : pat ≠ [] ∧ pat.isPrefixOf (c :: cs)
          · rw [if_pos hc, if_pos hc]
            have hd : (cs.drop (pat.length - 1)).length ≤ cs.length := by
              simp [List.length_drop]
            exact congrArg _ (ih f₁ f₂ _ (by omega) (by omega) (by omega))
          · rw [if_neg hc, if_neg hc]
            exact congrArg _ (ih f₁ f₂ cs (by omega) (by omega) (by omega))

theorem pyReplace_cons (pat rep : Str) (c : Char) (cs : Str) :
    pyReplace pat rep (c :: cs) =
      if pat ≠ [] ∧ pat.isPrefixOf (c :: cs) then
        rep ++ pyReplace pat rep (cs.drop (pat.length - 1))
      else
        c :: pyReplace pat rep cs := by
  show pyReplaceAux pat rep (cs.length + 1) (c :: cs) = _
  simp only [pyReplaceAux]
  by_cases hc : pat ≠ [] ∧ pat.isPrefixOf (c :: cs)
  · rw [if_pos hc, if_pos hc]
    refine congrArg _ (pyReplaceAux_congr pat rep cs.length _ _ _ ?_ ?_ ?_) <;>
      simp [List.length_drop]
  · rw [if_neg hc, if_neg hc]
    rfl

theorem pyReplace_nil (pat rep : Str) : pyReplace pat rep [] = [] := rfl

/-- C9: in a dynamizer pass with want = desired/2, the trim step issues
delete-0 exactly max(0, current − (want−1)) times, decrements the local
length counter once per deletion (clamped at zero), and leaves the current
position at most desired/2. -/
theorem c9_trim_step (desired pos : Nat) (len : Int) :
    ((trimPlayQueue desired pos len).deletes : Int) =
        max 0 ((pos : Int) - ((desired : Int) / 2 - 1)) ∧
    (trimPlayQueue desired pos len).lengthAfter =
        max 0 (len - ((trimPlayQueue desired pos len).deletes : Int)) ∧
    (pos : Int) - ((trimPlayQueue desired pos len).deletes : Int) ≤
        (desired : Int) / 2 := by
  refine ⟨?_, ?_, ?_⟩ <;> simp only [trimPlayQueue, max_def] <;>
    (try split_ifs) <;> omega

/-- The history limit that `can_add` stores (or finds already stored) is
exactly `historyCapacity` whenever the pool has more than one song. -/
theorem can_add_limit (h : PlayQueueHistory) (file : Str) (p : Nat)
    (hp : p ≠ 1) : ((can_add h file p).2).limit = historyCapacity p := by
  simp only [can_add, historyCapacity, if_neg hp]
  split_ifs <;> simp_all

/-- Closed form of the banker's rounding of 3p/4: it is the floor when
p ≡ 3 (mod 4) (fraction .25) or p ≡ 6 (mod 8) (fraction .5 with even
floor), and the ceiling otherwise. -/
theorem pyRound_three_quarters (p : Nat) :
    pyRound (3 * p) 4 = (3 * p + (if p % 4 = 3 ∨ p % 8 = 6 then 0 else 3)) / 4 := by
  obtain ⟨k, q, hq8, rfl⟩ : ∃ k q, q < 8 ∧ p = 8 * k + q :=
    ⟨p / 8, p % 8, Nat.mod_lt _ (by omega), by omega⟩
  interval_cases q <;> simp only [pyRound] <;> split_ifs <;> omega

/-- C5 (counterexample): at pool size 6 the code's capacity is
round-half-to-even(4.5) = 4, while the claim's ceil(6·0.75) is 5. -/
theorem c5_capacity_counterexample :
    historyCapacity 6 = 4 ∧ specCapacityCeil 6 = 5 ∧
    historyCapacity 6 ≠ specCapacityCeil 6 := by decide

/-- C5 (amended): the capacity is 1 at pool size 1, Python
round-half-to-even of p/2 for p < 5 (which equals ceil(p/2) there), and
min(round-half-to-even(3p/4), 200) otherwise — equivalently floor(3p/4)
when p ≡ 3 (mod 4) or p ≡ 6 (mod 8) and ceil(3p/4) otherwise, capped at
200.  The particular values claimed for p ∈ {1,4,5,100,1000} all hold. -/
theorem c5_capacity_amended (p : Nat) (hp : 1 ≤ p) :
    (p = 1 → historyCapacity p = 1) ∧
    (1 < p → p < 5 → historyCapacity p = (p + 1) / 2) ∧
    (5 ≤ p → historyCapacity p =
      min ((3 * p + (if p % 4 = 3 ∨ p % 8 = 6 then 0 else 3)) / 4) 200) ∧
    historyCapacity 1 = 1 ∧ historyCapacity 4 = 2 ∧ historyCapacity 5 = 4 ∧
    historyCapacity 100 = 75 ∧ historyCapacity 1000 = 200 := by
  refine ⟨?_, ?_, ?_, by decide, by decide, by decide, by decide, by decide⟩
  · intro h
    subst h
    decide
  · intro h1 h5
    interval_cases p <;> decide
  · intro h5
    have hp1 : ¬ p = 1 := by omega
    have hp5 : ¬ p < 5 := by omega
    rw [historyCapacity, if_neg hp1, if_neg hp5, pyRound_three_quarters]

/-- C5 (witness): the amended capacity law applied at pool size 6. -/
theorem c5_capacity_witness :
    1 ≤ 6 ∧
    ((6 = 1 → historyCapacity 6 = 1) ∧
     (1 < 6 → 6 < 5 → historyCapacity 6 = (6 + 1) / 2) ∧
     (5 ≤ 6 → historyCapacity 6 =
       min ((3 * 6 + (if 6 % 4 = 3 ∨ 6 % 8 = 6 then 0 else 3)) / 4) 200) ∧
     historyCapacity 1 = 1 ∧ historyCapacity 4 = 2 ∧ historyCapacity 5 = 4 ∧
     historyCapacity 100 = 75 ∧ historyCapacity 1000 = 200) :=
  ⟨by decide, c5_capacity_amended 6 (by decide)⟩

/-- C8 (counterexample): a single received chunk fooOK-newline terminates
the read loop and is returned, although it does not start with OK, does not
end with newline-OK-newline, and does not start with ACK — the claim's
three conditions all fail while the code returns. -/
theorem c8_read_reply_counterexample :
    read_reply ["fooOK\n".toList] [] = some "fooOK\n".toList ∧
    readReplyClaim ["fooOK\n".toList] [] = none ∧
    ("OK".toList.isPrefixOf "fooOK\n".toList) = false ∧
    ("\nOK\n".toList.isSuffixOf "fooOK\n".toList) = false ∧
    ("ACK".toList.isPrefixOf "fooOK\n".toList) = false := by
  refine ⟨rfl, rfl, by decide, by decide, by decide⟩

/-- C2 (counterexample): with an active rating range 3–5, no include rules,
one candidate, and an out-of-range sticker rating=1, the code passes the
file without querying the sticker, while the claim demands the sticker be
consulted and the file rejected. -/
theorem c2_rating_filter_counterexample :
    check_song_rating_in_range ratingCtxA "f".toList 0 =
      .ok (true, ["f".toList]) ∧
    specRatingPassClaim ratingCtxA "f".toList = false :=
  ⟨rfl, rfl⟩

/-- C3 (code bug): a payload with fewer than two colon-delimited parts makes
the dispatcher raise IndexError — the too-few-arguments branch evaluates
parts[1], which does not exist — instead of answering with code 10. -/
theorem c3_dispatcher_indexerror :
    handle_client_message "message: foo".toList = .error .indexError := rfl

/-- C4 (code bug): saving under the decoded name bad/name strips the slash
and writes badname.rules inside the rules directory, answering 0:bad/name —
not the claimed 2:bad/name with no file written. -/
theorem c4_save_slash_stripped :
    save_rules "/rules".toList "save".toList "abc".toList "bad/name".toList
        "Rating{c}1-5".toList =
      [.write "/rules/badname.rules".toList "Rating:1-5".toList, .timestamp,
       .message "save".toList "0:bad/name".toList "abc".toList,
       .statusMessage "abc".toList] := rfl

/-- C7 (code bug): a rule file containing the line MaxAge:30 makes readRules
raise TypeError — the handler compares the string value against the integer
0 — instead of being parsed (or skipped) without raising. -/
theorem c7_maxage_typeerror :
    parseLines rulesEnv0 ["MaxAge:30".toList] = .error .typeError ∧
    readRules rulesEnv0
        (some ⟨"/cfg/rules/active".toList, 5, ["MaxAge:30".toList]⟩)
        initialRulesState = .error .typeError :=
  ⟨rfl, rfl⟩

/-- C6 (counterexample): parsing the same two-line rule file twice yields
equal snapshots, but the changed flag is still true after the second read —
the full-parse path never clears it, and the mtime short-circuit that would
is dead because initial_read is never reset. -/
theorem c6_changed_latches :
    readRules rulesEnv0 (some fileB) initialRulesState = .ok rulesRead1 ∧
    readRules rulesEnv0 (some fileB) rulesRead1 = .ok rulesRead2 ∧
    rulesRead2.param0 = rulesRead1.param0 ∧
    rulesRead1.modified = true ∧
    rulesRead2.modified = true :=
  ⟨rfl, rfl, rfl, rfl, rfl⟩

theorem readRules_full (env : RulesEnv) (fi : FileInfo) (st : RulesState)
    (h : st.initialRead = true) :
    readRules env (some fi) st =
      match parseLines env fi.lines with
      | .error e => .error e
      | .ok p =>
        .ok (checkRulesChanged
          {st with
            activeLinksTo := some fi.path
            rulesTimestamp := fi.mtime
            param0 := p.param
            includeUnrated := p.includeUnrated
            playQueueDesiredLength := p.playQueueDesiredLength}) := by
  have hc : ¬ (st.initialRead = false ∧ fi.mtime = st.rulesTimestamp ∧
      st.activeLinksTo = some fi.path) := by
    rw [h]
    simp
  simp only [readRules, if_neg hc]

/-- C6 (amended): re-reading the same rule-file bytes in the same
environment yields a snapshot equal to the first read's, and leaves the
changed flag exactly as the first read left it (the full-parse path never
clears it; in particular it is false after the second read iff it was false
after the first). -/
theorem c6_reread_amended (env : RulesEnv) (fi : FileInfo) (st : RulesState)
    (hinit : st.initialRead = true) (s1 s2 : RulesState)
    (h1 : readRules env (some fi) st = .ok s1)
    (h2 : readRules env (some fi) s1 = .ok s2) :
    s2.param0 = s1.param0 ∧ s2.modified = s1.modified := by
  rw [readRules_full env fi st hinit] at h1
  cases hp : parseLines env fi.lines with
  | error e =>
    rw [hp] at h1
    exact Except.noConfusion h1
  | ok P =>
    rw [hp] at h1
    injection h1 with h1
    have hs1init : s1.initialRead = true := by rw [← h1]; exact hinit
    rw [readRules_full env fi s1 hs1init, hp] at h2
    injection h2 with h2
    subst h1
    subst h2
    constructor
    · rfl
    · show (if ¬ (if ¬ st.modified then neRulesParam P.param st.param1
              else st.modified) = true
            then neRulesParam P.param
              (if (if ¬ st.modified then neRulesParam P.param st.param1
                   else st.modified) = true
               then P.param else st.param1)
            else (if ¬ st.modified then neRulesParam P.param st.param1
                  else st.modified)) =
          (if ¬ st.modified then neRulesParam P.param st.param1
           else st.modified)
      by_cases hmod : st.modified = true
      · simp [hmod]
      · simp only [hmod, Bool.not_eq_true, eq_self_iff_true, if_true,
          Bool.false_eq_true, not_false_iff]
        by_cases hne : neRulesParam P.param st.param1 = true
        · simp [hne]
        · simp only [Bool.not_eq_true] at hne
          simp [hne]

/-- C6 (witness): the amended re-read law applied to a concrete two-line
rule file read twice from the initial state. -/
theorem c6_reread_witness :
    initialRulesState.initialRead = true ∧
    readRules rulesEnv0 (some fileB) initialRulesState = .ok rulesRead1 ∧
    readRules rulesEnv0 (some fileB) rulesRead1 = .ok rulesRead2 ∧
    (rulesRead2.param0 = rulesRead1.param0 ∧
      rulesRead2.modified = rulesRead1.modified) :=
  ⟨rfl, rfl, rfl,
    c6_reread_amended rulesEnv0 fileB initialRulesState rfl rulesRead1
      rulesRead2 rfl rfl⟩

theorem anyRatingInRange_eq (rating : MinMax) (iu : Bool) (es : List Str)
    (hwf : stickerWellFormed es = true) :
    anyRatingInRange rating iu es = .ok (es.any (stickerHit rating iu)) := by
  induction es with
  | nil => rfl
  | cons e es ih =>
    simp only [stickerWellFormed, List.all_cons, Bool.and_eq_true] at hwf
    have hwfe := hwf.1
    have ihres := ih (by simpa [stickerWellFormed] using hwf.2)
    simp only [anyRatingInRange, songRatingInRange, List.any_cons, stickerHit]
    cases hsp : splitAll '=' e with
    | nil => simp [hsp, ihres]
    | cons a tail =>
      cases tail with
      | nil => simp [hsp, ihres]
      | cons v tail2 =>
        cases tail2 with
        | nil =>
          rw [hsp] at hwfe
          simp only at hwfe
          obtain ⟨r, hr⟩ := Option.isSome_iff_exists.mp hwfe
          simp only [pyIntE, hr]
          by_cases hb : (memMinMax rating r || (r == 0 && iu)) = true
          · simp [hb]
          · simp only [Bool.not_eq_true] at hb
            simp [hb, ihres]
        | cons w tail3 => simp [hsp, ihres]

/-- C2 (amended): with the include-rules condition the right way round —
the filter passes whenever the rating range is disabled, rejects when the
candidate list is empty, passes without a sticker query when there are NO
include rules (the rating-only pool already respected the range), and only
when include rules exist queries the sticker and passes iff some parsed
value is in range or is 0 with includeUnrated; a rejected candidate is
removed from the list at its position. -/
theorem c2_rating_filter_amended (ctx : RatingCtx) (filename : Str) (pos : Nat)
    (hpos : pos < ctx.songs.length)
    (hwf : stickerWellFormed (ctx.sticker filename) = true) :
    check_song_rating_in_range ctx filename pos =
      .ok (codeRatingPass ctx filename,
        if codeRatingPass ctx filename then ctx.songs
        else ctx.songs.eraseIdx pos) := by
  have hne : ctx.songs.length ≠ 0 := by omega
  have hnemp : ctx.songs.isEmpty = false := by
    cases hs : ctx.songs with
    | nil => rw [hs] at hne; simp at hne
    | cons a as => rfl
  simp only [check_song_rating_in_range, codeRatingPass]
  by_cases hle : leMinMax ctx.rating 0 = true
  · simp [hle]
  · simp only [Bool.not_eq_true] at hle
    rw [if_neg (by simp [hle]), if_neg hne]
    by_cases hinc : ctx.includeRules = []
    · have : ctx.includeRules.isEmpty = true := by simp [hinc]
      simp [hinc, hle, hnemp, this]
    · have hincb : ctx.includeRules.isEmpty = false := by
        cases hi : ctx.includeRules with
        | nil => exact absurd hi hinc
        | cons a as => rfl
      rw [if_neg hinc, anyRatingInRange_eq ctx.rating ctx.includeUnrated _ hwf]
      by_cases hany :
          (ctx.sticker filename).any (stickerHit ctx.rating ctx.includeUnrated) = true
      · simp [hany, hle, hnemp, hincb]
      · simp only [Bool.not_eq_true] at hany
        simp [hany, hle, hnemp, hincb, hpos]

/-- C2 (witness): the amended filter law applied to a context with one
include rule, two candidates and an in-range sticker. -/
theorem c2_rating_filter_witness :
    0 < ratingCtxB.songs.length ∧
    stickerWellFormed (ratingCtxB.sticker "f".toList) = true ∧
    check_song_rating_in_range ratingCtxB "f".toList 0 =
      .ok (codeRatingPass ratingCtxB "f".toList,
        if codeRatingPass ratingCtxB "f".toList then ratingCtxB.songs
        else ratingCtxB.songs.eraseIdx 0) :=
  ⟨by decide, by decide, c2_rating_filter_amended ratingCtxB "f".toList 0
    (by decide) (by decide)⟩

theorem pyReplace_one_cons (a : Char) (rep : Str) (c : Char) (cs : Str) :
    pyReplace [a] rep (c :: cs) =
      (if c = a then rep else [c]) ++ pyReplace [a] rep cs := by
  rw [pyReplace_cons]
  by_cases h : c = a
  · subst h
    rw [if_pos ⟨by simp, by simp [List.isPrefixOf]⟩, if_pos rfl]
    simp
  · rw [if_neg, if_neg h]
    · simp
    · intro hc
      have := hc.2
      simp [List.isPrefixOf] at this
      exact h this.symm

theorem char_not_mem_pyReplace_strip (a : Char) (s : Str) :
    a ∉ pyReplace [a] [] s := by
  induction s with
  | nil => simp [pyReplace_nil]
  | cons c cs ih =>
    rw [pyReplace_one_cons]
    by_cases h : c = a
    · simpa [h] using ih
    · simp only [if_neg h, List.cons_append, List.nil_append, List.mem_cons]
      intro hc
      rcases hc with hc | hc
      · exact h hc.symm
      · exact ih hc

/-- C10: every file path the save action opens for writing is the rules
directory joined with name-dot-rules, where name is the codec-decoded name
argument with every slash removed and is nonempty; the part after the
directory separator contains no slash, so no save request writes outside
the rules directory. -/
theorem c10_save_path (dir req cid orig content : Str) :
    ∀ p c, Effect.write p c ∈ save_rules dir req cid orig content →
      p = dir ++ ['/'] ++ pyReplace ['/'] [] (decode orig) ++ ".rules".toList ∧
      pyReplace ['/'] [] (decode orig) ≠ [] ∧
      '/' ∉ pyReplace ['/'] [] (decode orig) ++ ".rules".toList := by
  intro p c hmem
  unfold save_rules at hmem
  by_cases h1 : pyReplace ['/'] [] (decode orig) = []
  · rw [if_pos h1] at hmem
    simp at hmem
  · rw [if_neg h1] at hmem
    by_cases h2 : ".rules".toList.isSuffixOf (pyReplace ['/'] [] (decode orig)) = true ∨
        '/' ∈ pyReplace ['/'] [] (decode orig)
    · rw [if_pos h2] at hmem
      simp at hmem
    · rw [if_neg h2] at hmem
      simp only [List.mem_cons, List.not_mem_nil, or_false] at hmem
      rcases hmem with hmem | hmem | hmem | hmem
      · injection hmem with hpath hcontent
        refine ⟨by rw [← hpath], h1, ?_⟩
        intro hsl
        rcases List.mem_append.mp hsl with hsl | hsl
        · exact char_not_mem_pyReplace_strip '/' (decode orig) hsl
        · simp at hsl
      all_goals exact absurd hmem (by simp)

/-- C10 (witness): a concrete save request that does write, at name Myrules
in directory /r. -/
theorem c10_save_path_witness :
    Effect.write "/r/Myrules.rules".toList [] ∈
      save_rules "/r".toList "save".toList "abc".toList "Myrules".toList [] ∧
    ("/r/Myrules.rules".toList =
        "/r".toList ++ ['/'] ++ pyReplace ['/'] [] (decode "Myrules".toList) ++
          ".rules".toList ∧
      pyReplace ['/'] [] (decode "Myrules".toList) ≠ [] ∧
      '/' ∉ pyReplace ['/'] [] (decode "Myrules".toList) ++ ".rules".toList) :=
  ⟨by decide,
    c10_save_path "/r".toList "save".toList "abc".toList "Myrules".toList []
      "/r/Myrules.rules".toList [] (by decide)⟩

theorem read_reply_step (ch : Str) (rest : List Str) (acc : Str) (hch : ch ≠ []) :
    read_reply (ch :: rest) acc =
      (if okCond (acc ++ ch) = true then some (acc ++ ch)
       else if ackCond (acc ++ ch) = true then some []
       else read_reply rest (acc ++ ch)) := by
  simp [read_reply, hch, okCond, ackCond]

/-- C8 (amended): with the terminator as the code has it — the reply loop
returns exactly when the accumulated buffer first starts with OK, ends with
OK-newline, or starts with ACK (the OK tests checked first); it returns the
accumulated text in the OK cases and the empty string in the ACK case. -/
theorem c8_read_reply_amended (chunks : List Str) (acc : Str)
    (hne : ∀ c ∈ chunks, c ≠ []) :
    ((read_reply chunks acc).isSome ↔
      ∃ k < chunks.length,
        (okCond (acc ++ joinChunks (chunks.take (k + 1))) ||
         ackCond (acc ++ joinChunks (chunks.take (k + 1)))) = true) ∧
    (∀ r, read_reply chunks acc = some r →
      ∃ k < chunks.length,
        (okCond (acc ++ joinChunks (chunks.take (k + 1))) = true ∧
          r = acc ++ joinChunks (chunks.take (k + 1))) ∨
        (okCond (acc ++ joinChunks (chunks.take (k + 1))) = false ∧
          ackCond (acc ++ joinChunks (chunks.take (k + 1))) = true ∧ r = [])) := by
  induction chunks generalizing acc with
  | nil =>
    constructor
    · simp [read_reply]
    · intro r hr
      simp [read_reply] at hr
  | cons ch rest ih =>
    have hch : ch ≠ [] := hne ch (by simp)
    have hrest : ∀ c ∈ rest, c ≠ [] := fun c hc => hne c (by simp [hc])
    have htake0 : acc ++ joinChunks ((ch :: rest).take 1) = acc ++ ch := by
      simp [joinChunks]
    by_cases hok : okCond (acc ++ ch) = true
    · rw [read_reply_step ch rest acc hch, if_pos hok]
      constructor
      · simp only [Option.isSome_some, true_iff]
        exact ⟨0, by simp, by rw [htake0]; simp [hok]⟩
      · intro r hr
        injection hr with hr
        exact ⟨0, by simp, Or.inl ⟨by rw [htake0]; exact hok,
          by rw [htake0]; exact hr.symm⟩⟩
    · have hokf : okCond (acc ++ ch) = false := by
        simpa using hok
      by_cases hack : ackCond (acc ++ ch) = true
      · rw [read_reply_step ch rest acc hch, if_neg (by simp [hokf]), if_pos hack]
        constructor
        · simp only [Option.isSome_some, true_iff]
          exact ⟨0, by simp, by rw [htake0]; simp [hack]⟩
        · intro r hr
          injection hr with hr
          exact ⟨0, by simp, Or.inr ⟨by rw [htake0]; exact hokf,
            by rw [htake0]; exact hack, hr.symm⟩⟩
      · have hackf : ackCond (acc ++ ch) = false := by
          simpa using hack
        rw [read_reply_step ch rest acc hch, if_neg (by simp [hokf]),
          if_neg (by simp [hackf])]
        obtain ⟨ih1, ih2⟩ := ih (acc ++ ch) hrest
        have hshift : ∀ k, acc ++ joinChunks ((ch :: rest).take (k + 2)) =
            (acc ++ ch) ++ joinChunks (rest.take (k + 1)) := by
          intro k
          simp [List.take_succ_cons, joinChunks, List.append_assoc]
        constructor
        · rw [ih1]
          constructor
          · rintro ⟨k, hk, hQ⟩
            refine ⟨k + 1, by simp only [List.length_cons]; omega, ?_⟩
            rw [hshift k]
            exact hQ
          · rintro ⟨k, hk, hQ⟩
            cases k with
            | zero =>
              rw [htake0] at hQ
              simp [hokf, hackf] at hQ
            | succ k =>
              refine ⟨k, by simp only [List.length_cons] at hk; omega, ?_⟩
              rw [hshift k] at hQ
              exact hQ
        · intro r hr
          obtain ⟨k, hk, hQ⟩ := ih2 r hr
          refine ⟨k + 1, by simp only [List.length_cons]; omega, ?_⟩
          rw [hshift k]
          exact hQ

/-- C8 (witness): the amended reply law applied to a single ACK chunk. -/
theorem c8_read_reply_witness :
    (∀ c ∈ [("ACKerr\n".toList : Str)], c ≠ []) ∧
    (((read_reply ["ACKerr\n".toList] []).isSome ↔
      ∃ k < ([("ACKerr\n".toList : Str)]).length,
        (okCond ([] ++ joinChunks (([("ACKerr\n".toList : Str)]).take (k + 1))) ||
         ackCond ([] ++ joinChunks (([("ACKerr\n".toList : Str)]).take (k + 1)))) =
          true) ∧
    (∀ r, read_reply ["ACKerr\n".toList] [] = some r →
      ∃ k < ([("ACKerr\n".toList : Str)]).length,
        (okCond ([] ++ joinChunks (([("ACKerr\n".toList : Str)]).take (k + 1))) =
            true ∧
          r = [] ++ joinChunks (([("ACKerr\n".toList : Str)]).take (k + 1))) ∨
        (okCond ([] ++ joinChunks (([("ACKerr\n".toList : Str)]).take (k + 1))) =
            false ∧
          ackCond ([] ++ joinChunks (([("ACKerr\n".toList : Str)]).take (k + 1))) =
            true ∧ r = []))) :=
  ⟨by decide, c8_read_reply_amended ["ACKerr\n".toList] [] (by decide)⟩

theorem pyReplace_one_append (a : Char) (rep : Str) (x y : Str) :
    pyReplace [a] rep (x ++ y) =
      pyReplace [a] rep x ++ pyReplace [a] rep y := by
  induction x with
  | nil => simp [pyReplace_nil]
  | cons c cs ih => simp [pyReplace_one_cons, ih, List.append_assoc]

theorem encode_eq (s : Str) :
    encode s =
      pyReplace [':'] tokC (pyReplace ['\n'] tokN (pyReplace ['}'] tokCB
        (pyReplace ['{'] tokOB (pyReplace ['"'] tokQ s)))) := rfl

theorem decode_eq (t : Str) :
    decode t =
      pyReplace tokQ ['"'] (pyReplace tokOB ['{'] (pyReplace tokCB ['}']
        (pyReplace tokN ['\n'] (pyReplace tokC [':'] t)))) := rfl

theorem encode_append (x y : Str) :
    encode (x ++ y) = encode x ++ encode y := by
  simp [encode_eq, pyReplace_one_append]

theorem encode_encChar (c : Char) : encode [c] = encChar c := by
  by_cases h1 : c = '"'
  · subst h1; decide
  by_cases h2 : c = '{'
  · subst h2; decide
  by_cases h3 : c = '}'
  · subst h3; decide
  by_cases h4 : c = '\n'
  · subst h4; decide
  by_cases h5 : c = ':'
  · subst h5; decide
  rw [encode_eq]
  simp [pyReplace_one_cons, pyReplace_nil, h1, h2, h3, h4, h5, encChar]

theorem encode_eq_mapConcat (s : Str) : encode s = mapConcat encChar s := by
  induction s with
  | nil => rfl
  | cons c cs ih =>
    rw [show c :: cs = [c] ++ cs from rfl, encode_append, encode_encChar, ih]
    rfl

theorem pyReplace_brace_cons (pat rep : Str) (hp : pat.head? = some '{')
    (c : Char) (hc : c ≠ '{') (cs : Str) :
    pyReplace pat rep (c :: cs) = c :: pyReplace pat rep cs := by
  rw [pyReplace_cons, if_neg]
  rintro ⟨-, hpre⟩
  cases pat with
  | nil => simp at hp
  | cons p ps =>
    simp only [List.head?_cons, Option.some.injEq] at hp
    subst hp
    simp only [List.isPrefixOf, Bool.and_eq_true, beq_iff_eq] at hpre
    exact hc hpre.1.symm

theorem encChar_plain (c : Char) (h1 : c ≠ '"') (h2 : c ≠ '{') (h3 : c ≠ '}')
    (h4 : c ≠ '\n') (h5 : c ≠ ':') : encChar c = [c] := by
  simp [encChar, h1, h2, h3, h4, h5]

theorem st4Char_plain (c : Char) (h1 : c ≠ '"') (h2 : c ≠ '{') (h3 : c ≠ '}')
    (h4 : c ≠ '\n') : st4Char c = [c] := by
  simp [st4Char, h1, h2, h3, h4]

theorem st3Char_plain (c : Char) (h1 : c ≠ '"') (h2 : c ≠ '{') (h3 : c ≠ '}') :
    st3Char c = [c] := by
  simp [st3Char, h1, h2, h3]

theorem st2Char_plain (c : Char) (h1 : c ≠ '"') (h2 : c ≠ '{') :
    st2Char c = [c] := by
  simp [st2Char, h1, h2]

theorem decode_layer5 (s : Str) :
    pyReplace tokC [':'] (mapConcat encChar s) = mapConcat st4Char s := by
  induction s with
  | nil => rfl
  | cons c cs ih =>
    simp only [mapConcat]
    by_cases h1 : c = '"'
    · subst h1; simp [encChar, st4Char, pyReplace_cons, tokC, List.isPrefixOf]; exact ih
    by_cases h2 : c = '{'
    · subst h2; simp [encChar, st4Char, pyReplace_cons, tokC, List.isPrefixOf]; exact ih
    by_cases h3 : c = '}'
    · subst h3; simp [encChar, st4Char, pyReplace_cons, tokC, List.isPrefixOf]; exact ih
    by_cases h4 : c = '\n'
    · subst h4; simp [encChar, st4Char, pyReplace_cons, tokC, List.isPrefixOf]; exact ih
    by_cases h5 : c = ':'
    · subst h5; simp [encChar, st4Char, pyReplace_cons, tokC, List.isPrefixOf]; exact ih
    rw [encChar_plain c h1 h2 h3 h4 h5, st4Char_plain c h1 h2 h3 h4]
    simp only [List.cons_append, List.nil_append]
    rw [pyReplace_brace_cons tokC [':'] rfl c h2, ih]

theorem decode_layer4 (s : Str) :
    pyReplace tokN ['\n'] (mapConcat st4Char s) = mapConcat st3Char s := by
  induction s with
  | nil => rfl
  | cons c cs ih =>
    simp only [mapConcat]
    by_cases h1 : c = '"'
    · subst h1; simp [st4Char, st3Char, pyReplace_cons, tokN, List.isPrefixOf]; exact ih
    by_cases h2 : c = '{'
    · subst h2; simp [st4Char, st3Char, pyReplace_cons, tokN, List.isPrefixOf]; exact ih
    by_cases h3 : c = '}'
    · subst h3; simp [st4Char, st3Char, pyReplace_cons, tokN, List.isPrefixOf]; exact ih
    by_cases h4 : c = '\n'
    · subst h4; simp [st4Char, st3Char, pyReplace_cons, tokN, List.isPrefixOf]; exact ih
    rw [st4Char_plain c h1 h2 h3 h4, st3Char_plain c h1 h2 h3]
    simp only [List.cons_append, List.nil_append]
    rw [pyReplace_brace_cons tokN ['\n'] rfl c h2, ih]

theorem decode_layer3 (s : Str) :
    pyReplace tokCB ['}'] (mapConcat st3Char s) = mapConcat st2Char s := by
  induction s with
  | nil => rfl
  | cons c cs ih =>
    simp only [mapConcat]
    by_cases h1 : c = '"'
    · subst h1; simp [st3Char, st2Char, pyReplace_cons, tokCB, List.isPrefixOf]; exact ih
    by_cases h2 : c = '{'
    · subst h2; simp [st3Char, st2Char, pyReplace_cons, tokCB, List.isPrefixOf]; exact ih
    by_cases h3 : c = '}'
    · subst h3; simp [st3Char, st2Char, pyReplace_cons, tokCB, List.isPrefixOf]; exact ih
    rw [st3Char_plain c h1 h2 h3, st2Char_plain c h1 h2]
    simp only [List.cons_append, List.nil_append]
    rw [pyReplace_brace_cons tokCB ['}'] rfl c h2, ih]

theorem decode_layer2 (s : Str) :
    pyReplace tokOB ['{'] (mapConcat st2Char s) = mapConcat st1Char s := by
  induction s with
  | nil => rfl
  | cons c cs ih =>
    simp only [mapConcat]
    by_cases h1 : c = '"'
    · subst h1; simp [st2Char, st1Char, pyReplace_cons, tokOB, List.isPrefixOf]; exact ih
    by_cases h2 : c = '{'
    · subst h2; simp [st2Char, st1Char, pyReplace_cons, tokOB, List.isPrefixOf]; exact ih
    rw [st2Char_plain c h1 h2]
    have hst1 : st1Char c = [c] := by simp [st1Char, h1]
    rw [hst1]
    simp only [List.cons_append, List.nil_append]
    rw [pyReplace_brace_cons tokOB ['{'] rfl c h2, ih]

theorem st1_prefix_close (s : Str) :
    (['}'] : Str).isPrefixOf (mapConcat st1Char s) =
      (['}'] : Str).isPrefixOf s := by
  cases s with
  | nil => rfl
  | cons c cs =>
    by_cases h : c = '"'
    · subst h; simp [mapConcat, st1Char, List.isPrefixOf]
    · simp [mapConcat, st1Char, h, List.isPrefixOf]

theorem st1_prefix_qclose (s : Str) :
    (['q', '}'] : Str).isPrefixOf (mapConcat st1Char s) =
      (['q', '}'] : Str).isPrefixOf s := by
  cases s with
  | nil => rfl
  | cons c cs =>
    by_cases h : c = '"'
    · subst h; simp [mapConcat, st1Char, List.isPrefixOf]
    · simp [mapConcat, st1Char, h, List.isPrefixOf, st1_prefix_close]

theorem decode_layer1 (s : Str) (h : hasTok tokQ s = false) :
    pyReplace tokQ ['"'] (mapConcat st1Char s) = s := by
  induction s with
  | nil => rfl
  | cons c cs ih =>
    have h' : tokQ.isPrefixOf (c :: cs) = false ∧ hasTok tokQ cs = false := by
      simpa [hasTok] using h
    obtain ⟨hpre, hcs⟩ := h'
    simp only [mapConcat]
    by_cases hq : c = '"'
    · subst hq
      simp [st1Char, pyReplace_cons, tokQ, List.isPrefixOf]; exact ih hcs
    · have hst : st1Char c = [c] := by simp [st1Char, hq]
      rw [hst]
      simp only [List.cons_append, List.nil_append]
      rw [pyReplace_cons, if_neg, ih hcs]
      rintro ⟨-, hp⟩
      have key : tokQ.isPrefixOf (c :: mapConcat st1Char cs) =
          tokQ.isPrefixOf (c :: cs) := by
        simp [tokQ, List.isPrefixOf, st1_prefix_qclose]
      rw [key, hpre] at hp
      exact absurd hp (by simp)

/-- C1 (counterexample): the string open-brace q close-brace encodes to the
same output as a lone double quote, so decoding its encoding returns the
double quote, not the original string — the round trip fails. -/
theorem c1_roundtrip_counterexample :
    decode (encode "{q}".toList) = "\"".toList ∧
    decode (encode "{q}".toList) ≠ "{q}".toList ∧
    encode "{q}".toList = encode "\"".toList := by
  refine ⟨by decide, by decide, by decide⟩

/-- C1 (amended): for every string that does not contain the placeholder
open-brace q close-brace as a substring, decoding the Cantata-codec encoding
yields the string back (encoding in table order, decoding in reverse). -/
theorem c1_roundtrip_amended (s : Str) (h : hasTok tokQ s = false) :
    decode (encode s) = s := by
  rw [decode_eq, encode_eq_mapConcat, decode_layer5, decode_layer4,
    decode_layer3, decode_layer2, decode_layer1 s h]

/-- C1 (witness): the amended round trip applied to a concrete rule payload
containing a quote, braces, newlines and colons. -/
theorem c1_roundtrip_witness :
    hasTok tokQ "Rating:1-5\nRule\nArtist:\"X{}\"".toList = false ∧
    decode (encode "Rating:1-5\nRule\nArtist:\"X{}\"".toList) =
      "Rating:1-5\nRule\nArtist:\"X{}\"".toList :=
  ⟨by decide, c1_roundtrip_amended _ (by decide)⟩
